import Mathlib

/-!
Verification of the tickettok agent supervisor against its specification.

Strings from the Go source are modelled as lists of Unicode scalar values
(`List Char`).  Byte-oriented operations (Go `len`) are modelled by the
UTF-8 byte count of such a list.  `strings.ToLower` is modelled on the
ASCII range, which covers every pattern the program matches against.
-/

namespace Tickettok

abbrev Str := List Char

/-- The ESC character that introduces an ANSI escape sequence. -/
def escChar : Char := Char.ofNat 27

/-- Convenience conversion from a Lean string literal to the `Str` model. -/
def lit (s : String) : Str := s.toList

/-- Model of `unicode.IsSpace` as used by `strings.TrimSpace`. -/
def goIsSpace (c : Char) : Bool :=
  c == ' ' || c == Char.ofNat 9 || c == Char.ofNat 10 || c == Char.ofNat 11 ||
  c == Char.ofNat 12 || c == Char.ofNat 13 || c == Char.ofNat 0x85 ||
  c == Char.ofNat 0xA0 || c == Char.ofNat 0x1680 ||
  (0x2000 ≤ c.toNat && c.toNat ≤ 0x200A) ||
  c == Char.ofNat 0x2028 || c == Char.ofNat 0x2029 ||
  c == Char.ofNat 0x202F || c == Char.ofNat 0x205F || c == Char.ofNat 0x3000

/-- Model of `strings.ToLower` restricted to ASCII letters. -/
def lowerStr (s : Str) : Str := s.map Char.toLower

/-- Model of `strings.TrimSpace`. -/
def trimStr (s : Str) : Str :=
  ((s.dropWhile goIsSpace).reverse.dropWhile goIsSpace).reverse

/-- Number of bytes of the UTF-8 encoding of a scalar value (Go `len` counts bytes). -/
def charUtf8Len (c : Char) : Nat :=
  if c.toNat < 0x80 then 1
  else if c.toNat < 0x800 then 2
  else if c.toNat < 0x10000 then 3
  else 4

/-- Model of Go `len(s)` on a string: total UTF-8 byte count. -/
def utf8Len (s : Str) : Nat := (s.map charUtf8Len).sum

/-- Model of `strings.Contains hay needle`. -/
def containsSub (hay needle : Str) : Bool :=
  match hay with
  | [] => needle.isEmpty
  | _ :: t => needle.isPrefixOf hay || containsSub t needle

/-- A parameter character of an ANSI control sequence: `[0-9;]`. -/
def isAnsiParam (c : Char) : Bool := c.isDigit || c == ';'

/-- After an ESC character, try to consume `[[0-9;]*[a-zA-Z]` and return the rest.
Mirrors one match of the regex in `stripAnsiStr`. -/
def ansiSuffix : Str → Option Str
  | [] => none
  | bra :: rest2 =>
    if bra == '[' then
      match rest2.dropWhile isAnsiParam with
      | [] => none
      | a :: tail => if a.isAlpha then some tail else none
    else none

/-- Fuel-indexed worker for `stripAnsiStr`; the fuel is an upper bound on the
input length, so the zero-fuel case is never reached from `stripAnsiStr`. -/
def stripAnsiGo : Nat → Str → Str
  | 0, s => s
  | _ + 1, [] => []
  | fuel + 1, c :: rest =>
    if c == escChar then
      match ansiSuffix rest with
      | some tail => stripAnsiGo fuel tail
      | none => c :: stripAnsiGo fuel rest
    else c :: stripAnsiGo fuel rest

/-- Model of `stripAnsiStr`: delete every match of the regex
ESC `\[[0-9;]*[a-zA-Z]`, scanning left to right. -/
def stripAnsiStr (s : Str) : Str := stripAnsiGo s.length s

/-- Model of `strings.Split(content, "\n")`. -/
def splitLines : Str → List Str
  | [] => [[]]
  | c :: rest =>
    if c == '\n' then [] :: splitLines rest
    else
      match splitLines rest with
      | h :: t => (c :: h) :: t
      | [] => [[c]]

/-- The per-line normalisation every detector applies:
`strings.TrimSpace(stripAnsiStr(line))`. -/
def cleanLine (l : Str) : Str := trimStr (stripAnsiStr l)

/-- The bottom-up window of non-blank cleaned lines every detector scans:
the loop `for i := len(lines)-1; i >= 0 && len(recent) < limit; i--`.
The bottommost non-blank line ends up at the head of the result. -/
def buildRecent (limit : Nat) (lines : List Str) : List Str :=
  (((lines.reverse).map cleanLine).filter (fun l => !l.isEmpty)).take limit

/-- The closed status enum of the store (`AgentStatus`). -/
inductive AgentStatus
  | running
  | waiting
  | idle
  | done
deriving DecidableEq, Repr

/-- The three registered backends. -/
inductive BackendKind
  | claude
  | gemini
  | codex
deriving DecidableEq, Repr

/-- Model of `hasDingbat`: a Unicode dingbat in U+2700–U+27BF. -/
def hasDingbat (l : Str) : Bool :=
  l.any (fun c => 0x2700 ≤ c.toNat && c.toNat ≤ 0x27BF)

/-- One line of the Claude RUNNING scan. -/
def claudeRunLine (line : Str) : Bool :=
  let lower := lowerStr line
  containsSub lower (lit ("esc to interrupt")) ||
  containsSub lower (lit ("running…")) ||
  containsSub lower (lit ("running...")) ||
  ((containsSub line (lit ("…")) || containsSub line (lit ("..."))) && hasDingbat line)

/-- The Claude WAITING phrase list. -/
def claudeWaitPats : List Str :=
  [lit ("allow once"), lit ("allow always"),
   lit ("enter to select"), lit ("space to select"),
   lit ("yes/no/always allow"),
   lit ("do you want to proceed"),
   lit ("shall i proceed"), lit ("should i proceed"),
   lit ("approve"), lit ("deny"), lit ("reject"),
   lit ("(y)es"), lit ("(n)o"), lit ("y/n"), lit ("yes/no"),
   lit ("ctrl+g to edit")]

/-- One line of the Claude WAITING scan. -/
def claudeWaitLine (line : Str) : Bool :=
  let lower := lowerStr line
  claudeWaitPats.any (fun p => containsSub lower p)

/-- One line of the Claude IDLE scan. -/
def claudeIdleLine (line : Str) : Bool :=
  let lower := lowerStr line
  line == lit (">") || line == lit ("$") ||
  (lit ("> ")).isSuffixOf line || (lit ("$ ")).isSuffixOf line ||
  containsSub line (lit ("❯")) ||
  containsSub lower (lit ("? for shortcuts")) ||
  containsSub lower (lit ("has completed")) ||
  containsSub lower (lit ("anything else")) ||
  containsSub lower (lit ("can i help"))

/-- The session-termination phrases, shared by all three backends. -/
def donePats : List Str :=
  [lit ("exited"), lit ("goodbye"), lit ("session ended"), lit ("bye")]

/-- DONE test on a single (bottommost) line. -/
def doneLine (line : Str) : Bool :=
  let lower := lowerStr line
  donePats.any (fun p => containsSub lower p)

/-- Model of `ClaudeBackend.DetectStatus`. -/
def claudeDetectStatus (content : Str) : AgentStatus :=
  let recent := buildRecent 15 (splitLines content)
  if recent.isEmpty then .running
  else if recent.any claudeRunLine then .running
  else if recent.any claudeWaitLine then .waiting
  else if recent.any claudeIdleLine then .idle
  else if doneLine (recent.headD []) then .done
  else .running

/-- One line of the Gemini RUNNING scan. -/
def geminiRunLine (line : Str) : Bool :=
  containsSub (lowerStr line) (lit ("esc to cancel"))

/-- The Gemini WAITING phrase list. -/
def geminiWaitPats : List Str :=
  [lit ("approve"), lit ("deny"), lit ("allow"),
   lit ("yes/no"), lit ("y/n"), lit ("(y)es"), lit ("(n)o"),
   lit ("do you want to proceed"),
   lit ("shall i proceed"), lit ("should i proceed")]

/-- One line of the Gemini WAITING scan. -/
def geminiWaitLine (line : Str) : Bool :=
  let lower := lowerStr line
  geminiWaitPats.any (fun p => containsSub lower p)

/-- One line of the Gemini IDLE scan. -/
def geminiIdleLine (line : Str) : Bool :=
  let lower := lowerStr line
  containsSub lower (lit ("type your message")) ||
  containsSub lower (lit ("what would you like")) ||
  containsSub lower (lit ("how can i help")) ||
  containsSub lower (lit ("let me know what"))

/-- Model of `GeminiBackend.DetectStatus`: DONE is checked first, on the
bottommost non-blank line. -/
def geminiDetectStatus (content : Str) : AgentStatus :=
  let recent := buildRecent 20 (splitLines content)
  if recent.isEmpty then .running
  else if doneLine (recent.headD []) then .done
  else if recent.any geminiRunLine then .running
  else if recent.any geminiWaitLine then .waiting
  else if recent.any geminiIdleLine then .idle
  else .running

/-- One line of the Codex RUNNING scan. -/
def codexRunLine (line : Str) : Bool :=
  containsSub (lowerStr line) (lit ("esc to interrupt"))

/-- The Codex WAITING phrase list. -/
def codexWaitPats : List Str :=
  [lit ("approve"), lit ("deny"), lit ("allow"),
   lit ("yes/no"), lit ("y/n"), lit ("(y)es"), lit ("(n)o"),
   lit ("do you want to proceed"),
   lit ("permission"), lit ("/permissions")]

/-- One line of the Codex WAITING scan. -/
def codexWaitLine (line : Str) : Bool :=
  let lower := lowerStr line
  codexWaitPats.any (fun p => containsSub lower p)

/-- One line of the Codex IDLE scan. -/
def codexIdleLine (line : Str) : Bool :=
  let lower := lowerStr line
  containsSub lower (lit ("tokens used")) ||
  containsSub lower (lit ("what would you like")) ||
  containsSub lower (lit ("how can i help")) ||
  line == lit (">") || line == lit ("$") ||
  (lit ("> ")).isSuffixOf line || (lit ("$ ")).isSuffixOf line

/-- Model of `CodexBackend.DetectStatus`: DONE is checked first, on the
bottommost non-blank line. -/
def codexDetectStatus (content : Str) : AgentStatus :=
  let recent := buildRecent 20 (splitLines content)
  if recent.isEmpty then .running
  else if doneLine (recent.headD []) then .done
  else if recent.any codexRunLine then .running
  else if recent.any codexWaitLine then .waiting
  else if recent.any codexIdleLine then .idle
  else .running

/-- Backend dispatch of `DetectStatus`. -/
def detectStatus : BackendKind → Str → AgentStatus
  | .claude => claudeDetectStatus
  | .gemini => geminiDetectStatus
  | .codex => codexDetectStatus

/-- Model of `isSeparatorLine`: a rule of `─` or `-` characters at least 10
bytes long (Go `len` counts bytes, and `─` is three bytes). -/
def isSeparatorLine (s : Str) : Bool :=
  if utf8Len s < 10 then false
  else s.all (fun c => c == '─' || c == '-')

/-- Index of the last element satisfying `p`, mirroring the descending
`for i := len(lines)-1; i >= 0; i--` search loops. -/
def findLastIdx (p : α → Bool) : List α → Option Nat
  | [] => none
  | a :: as =>
    match findLastIdx p as with
    | some i => some (i + 1)
    | none => if p a then some 0 else none

/-- Model of `claudeStripChromeLines`: cut at the separator above the last
`❯` prompt line, or at the prompt line itself. -/
def claudeStripChromeLines (lines : List Str) : List Str :=
  match findLastIdx (fun l => (lit ("❯")).isPrefixOf (cleanLine l)) lines with
  | none => lines
  | some pIdx =>
    match findLastIdx (fun l => isSeparatorLine (cleanLine l)) (lines.take pIdx) with
    | some i => lines.take i
    | none => lines.take pIdx

/-- Model of `claudeStripWaitingChrome`: drop separator lines, then drop the
bottommost non-blank line. -/
def claudeStripWaitingChrome (lines : List Str) : List Str :=
  let filtered := lines.filter (fun l => !isSeparatorLine (cleanLine l))
  match findLastIdx (fun l => !(cleanLine l).isEmpty) filtered with
  | none => filtered
  | some i => filtered.eraseIdx i

/-- Backend dispatch of `StripChrome lines waiting` (Gemini and Codex return
the lines unchanged). -/
def stripChrome : BackendKind → Bool → List Str → List Str
  | .claude, true, lines => claudeStripWaitingChrome lines
  | .claude, false, lines => claudeStripChromeLines lines
  | .gemini, _, lines => lines
  | .codex, _, lines => lines

/-- Bottom-up collection loop of `PreviewFromContent`, fed the reversed line
list; keeps cleaned lines that are non-blank and longer than 2 bytes. -/
def previewPick : Nat → List Str → List Str
  | 0, _ => []
  | _ + 1, [] => []
  | n + 1, raw :: rest =>
    let l := cleanLine raw
    if !l.isEmpty && 2 < utf8Len l then l :: previewPick n rest
    else previewPick (n + 1) rest

/-- Model of `PreviewFromContent content n stripFn`. -/
def PreviewFromContent (content : Str) (n : Nat) (stripFn : List Str → List Str) : List Str :=
  (previewPick n ((stripFn (splitLines content)).reverse)).reverse

/-- A parsed hook status record `{state, ts}`; a missing or unparseable file
is modelled as `none` at the call sites. -/
structure HookRec where
  state : String
  ts : Int
deriving DecidableEq, Repr

/-- Model of `readHookStatusFile` (and of the identical
`ClaudeBackend.ReadHookStatus`): TTL check against `now`, RUNNING expires
after 30 seconds, the other states after 300. -/
def readHookStatusFile (rec? : Option HookRec) (now : Int) : Option AgentStatus :=
  match rec? with
  | none => none
  | some r =>
    let age := now - r.ts
    if r.state == "RUNNING" then (if 30 < age then none else some .running)
    else if r.state == "WAITING" then (if 300 < age then none else some .waiting)
    else if r.state == "IDLE" then (if 300 < age then none else some .idle)
    else if r.state == "DONE" then (if 300 < age then none else some .done)
    else none

/-- The persisted `Agent` record. -/
structure Agent where
  id : String
  name : String
  dir : String
  status : AgentStatus
  createdAt : Int
  statusSince : Int
  sessionName : String
  discovered : Bool
  backendId : String
deriving DecidableEq, Repr

/-- The in-memory part of the `Store`: state path, agent list, next identity. -/
structure StoreSt where
  path : String
  agents : List Agent
  nextId : Nat
deriving DecidableEq, Repr

/-- Observable file-system effects of a store save. -/
inductive FsOp
  | write (path : String) (doc : List Agent)
  | rename (src dst : String)
deriving DecidableEq, Repr

/-- Model of `Store.save`: one direct whole-document write to the state path
(`os.WriteFile`), with no temporary file and no rename. -/
def storeSave (s : StoreSt) : List FsOp := [FsOp.write s.path s.agents]

/-- The default backend is the first registered one, `claude`. -/
def defaultBackendId : String := "claude"

/-- Model of `Store.Add`: append a fresh RUNNING agent and save. -/
def storeAdd (s : StoreSt) (name dir : String) (now : Int) : StoreSt × Agent × List FsOp :=
  let a : Agent :=
    { id := toString s.nextId, name := name, dir := dir, status := .running,
      createdAt := now, statusSince := now, sessionName := "",
      discovered := false, backendId := defaultBackendId }
  let s2 : StoreSt := { s with nextId := s.nextId + 1, agents := s.agents ++ [a] }
  (s2, a, storeSave s2)

/-- Remove the first agent with the given id, if present. -/
def removeFirst (id : String) : List Agent → Option (List Agent)
  | [] => none
  | a :: as =>
    if a.id == id then some as
    else
      match removeFirst id as with
      | some rest => some (a :: rest)
      | none => none

/-- Model of `Store.Remove`: saves only when an agent was removed. -/
def storeRemove (s : StoreSt) (id : String) : StoreSt × Bool × List FsOp :=
  match removeFirst id s.agents with
  | some as => let s2 : StoreSt := { s with agents := as }; (s2, true, storeSave s2)
  | none => (s, false, [])

/-- Update the first agent satisfying `p`, mirroring the `break` loops. -/
def updateFirst (p : Agent → Bool) (f : Agent → Agent) : List Agent → List Agent
  | [] => []
  | a :: as => if p a then f a :: as else a :: updateFirst p f as

/-- Model of `Store.Update`: set the status (and the since timestamp when the
status changes) of the first agent with the id, then save unconditionally. -/
def storeUpdate (s : StoreSt) (id : String) (st : AgentStatus) (now : Int) : StoreSt × List FsOp :=
  let as := updateFirst (fun a => a.id == id)
    (fun a => if a.status ≠ st then { a with status := st, statusSince := now } else a) s.agents
  let s2 : StoreSt := { s with agents := as }
  (s2, storeSave s2)

/-- Model of `Store.UpdateSessionName`: always saves. -/
def storeUpdateSessionName (s : StoreSt) (id sessName : String) : StoreSt × List FsOp :=
  let as := updateFirst (fun a => a.id == id) (fun a => { a with sessionName := sessName }) s.agents
  let s2 : StoreSt := { s with agents := as }
  (s2, storeSave s2)

/-- Model of `Store.UpdateDiscovered`: always saves. -/
def storeUpdateDiscovered (s : StoreSt) (id : String) (disc : Bool) : StoreSt × List FsOp :=
  let as := updateFirst (fun a => a.id == id) (fun a => { a with discovered := disc }) s.agents
  let s2 : StoreSt := { s with agents := as }
  (s2, storeSave s2)

/-- Model of `Store.ClearDone`: drop DONE agents; saves only when at least one
was removed. -/
def storeClearDone (s : StoreSt) : StoreSt × Nat × List FsOp :=
  let removed := s.agents.countP (fun a => a.status == .done)
  let kept := s.agents.filter (fun a => !(a.status == .done))
  if 0 < removed then
    let s2 : StoreSt := { s with agents := kept }
    (s2, removed, storeSave s2)
  else (s, removed, [])

/-- Model of `Agent.Backend()`: registry lookup with fallback to the default
(first registered) backend. -/
def backendOf (id : String) : BackendKind :=
  if id == "gemini" then .gemini
  else if id == "codex" then .codex
  else .claude

/-- External world the agent manager observes: tmux session liveness, pane
capture, hook status files, and its own in-memory session map. -/
structure ManagerEnv where
  alive : String → Bool
  capture : String → Option Str
  hookFile : String → Option HookRec
  memSession : String → Option String

/-- Model of `AgentManager.GetSession`: in-memory handle first, else
reconstruct from the recorded session name when that session is alive. -/
def getSession (env : ManagerEnv) (agent : Agent) : Option String :=
  match env.memSession agent.id with
  | some s => some s
  | none =>
    if !(agent.sessionName == "") && env.alive agent.sessionName then some agent.sessionName
    else none

/-- Model of `AgentManager.DetectStatus`: discovered agents use a PTY-free
liveness check and capture; spawned agents try the hook fast path first and
only then the scrape fallback. -/
def managerDetectStatus (env : ManagerEnv) (agent : Agent) (now : Int) : AgentStatus :=
  let backend := backendOf agent.backendId
  if agent.discovered then
    if !(env.alive agent.sessionName) then .done
    else
      match env.capture agent.sessionName with
      | none => .done
      | some content => detectStatus backend content
  else
    match readHookStatusFile (env.hookFile agent.id) now with
    | some st => st
    | none =>
      match getSession env agent with
      | none => .done
      | some sess =>
        if !(env.alive sess) then .done
        else
          match env.capture sess with
          | none => .done
          | some content => detectStatus backend content

/-- A transient discovery candidate. -/
structure DiscoveredAgent where
  name : String
  dir : String
  sessionName : String
  paneId : String
  pid : Int
deriving DecidableEq, Repr

/-- One iteration of the loop in `Model.mergeDiscovered`, over the fixed
snapshot `m.agents`: revive a DONE agent with the same session name, skip a
non-DONE one, otherwise add a new discovered agent. -/
def mergeOne (snapshot : List Agent) (st : StoreSt) (d : DiscoveredAgent) (now : Int) : StoreSt :=
  match snapshot.find? (fun a => a.sessionName == d.sessionName) with
  | some a =>
    if a.status == .done then
      let st1 := (storeUpdate st a.id .running now).1
      (storeUpdateDiscovered st1 a.id true).1
    else st
  | none =>
    let r := storeAdd st d.name d.dir now
    let st2 := (storeUpdateSessionName r.1 r.2.1.id d.sessionName).1
    (storeUpdateDiscovered st2 r.2.1.id true).1

/-- Model of `Model.mergeDiscovered`: fold over the batch with the snapshot
of `m.agents` taken before the call and never refreshed inside it. -/
def mergeDiscovered (snapshot : List Agent) (st : StoreSt) (found : List DiscoveredAgent) (now : Int) : StoreSt :=
  found.foldl (fun acc d => mergeOne snapshot acc d now) st

/-- Number of tracked agents bound to a session name. -/
def countSess (st : StoreSt) (name : String) : Nat :=
  st.agents.countP (fun a => a.sessionName == name)

/-- Evaluation of an ordered rule list, as the specification describes the
detection state machine: first matching rule wins, else the default. -/
def firstMatch (rules : List ((List Str → Bool) × AgentStatus)) (dflt : AgentStatus)
    (recent : List Str) : AgentStatus :=
  match rules with
  | [] => dflt
  | (p, st) :: rest => if p recent then st else firstMatch rest dflt recent

/-- Rule predicate: some scanned line satisfies `p`. -/
def anyLine (p : Str → Bool) (recent : List Str) : Bool := recent.any p

/-- Rule predicate: the bottommost non-blank line carries a termination phrase. -/
def bottomDone (recent : List Str) : Bool := doneLine (recent.headD [])

/-- The bottommost non-blank cleaned line of a pane capture (independent of
the per-backend window limit). -/
def bottomLine (content : Str) : Str :=
  ((((splitLines content).reverse).map cleanLine).filter (fun l => !l.isEmpty)).headD []

/-- Whether the input contains none of the chrome markers the given backend
and mode search for: the `❯` prompt for Claude outside waiting mode, the
separator rules for Claude in waiting mode, nothing for Gemini and Codex. -/
def noChromeMarkers (b : BackendKind) (w : Bool) (lines : List Str) : Bool :=
  match b, w with
  | .claude, false => !(lines.any (fun l => (lit ("❯")).isPrefixOf (cleanLine l)))
  | .claude, true => !(lines.any (fun l => isSeparatorLine (cleanLine l)))
  | _, _ => true

/-! ## Helper lemmas -/

theorem headD_take {α} (l : List α) (d : α) (n : Nat) (h : 0 < n) :
    (l.take n).headD d = l.headD d := by
  cases l with
  | nil => simp
  | cons a t =>
    cases n with
    | zero => exact absurd h (by simp)
    | succ m => simp [List.take]

theorem findLastIdx_eq_none {α} (p : α → Bool) (l : List α) (h : ∀ x ∈ l, p x = false) :
    findLastIdx p l = none := by
  induction l with
  | nil => rfl
  | cons a t ih =>
    have ht : findLastIdx p t = none := ih (fun x hx => h x (List.mem_cons_of_mem a hx))
    have ha : p a = false := h a (List.mem_cons_self a t)
    simp [findLastIdx, ht, ha]

theorem splitLines_ne_nil (c : Str) : splitLines c ≠ [] := by
  induction c with
  | nil => simp [splitLines]
  | cons a t ih =>
    simp only [splitLines]
    split
    · simp
    · cases h : splitLines t with
      | nil => simp
      | cons x xs => simp

theorem mem_splitLines_mem (c : Str) :
    ∀ l ∈ splitLines c, ∀ x ∈ l, x ∈ c := by
  induction c with
  | nil =>
    intro l hl x hx
    simp [splitLines] at hl
    subst hl
    simp at hx
  | cons a t ih =>
    intro l hl x hx
    by_cases ha : (a == '\n') = true
    · rw [splitLines, if_pos ha] at hl
      rcases List.mem_cons.mp hl with h1 | h1
      · subst h1; simp at hx
      · exact List.mem_cons_of_mem a (ih l h1 x hx)
    · obtain ⟨hh, ts, heq⟩ := List.exists_cons_of_ne_nil (splitLines_ne_nil t)
      rw [splitLines, if_neg ha, heq] at hl
      rcases List.mem_cons.mp hl with h1 | h1
      · subst h1
        rcases List.mem_cons.mp hx with h2 | h2
        · rw [h2]; exact List.mem_cons_self a t
        · have : hh ∈ splitLines t := by rw [heq]; exact List.mem_cons_self hh ts
          exact List.mem_cons_of_mem a (ih hh this x h2)
      · have : l ∈ splitLines t := by rw [heq]; exact List.mem_cons_of_mem hh h1
        exact List.mem_cons_of_mem a (ih l this x hx)

theorem stripAnsiGo_no_esc (fuel : Nat) (s : Str) (h : ∀ x ∈ s, (x == escChar) = false) :
    stripAnsiGo fuel s = s := by
  induction fuel generalizing s with
  | zero => rfl
  | succ n ih =>
    cases s with
    | nil => rfl
    | cons c rest =>
      have hc := h c (List.mem_cons_self c rest)
      simp only [stripAnsiGo, hc]
      simp only [Bool.false_eq_true, if_false, List.cons.injEq, true_and]
      exact ih rest (fun x hx => h x (List.mem_cons_of_mem c hx))

theorem trimStr_all_space (s : Str) (h : ∀ x ∈ s, goIsSpace x = true) : trimStr s = [] := by
  unfold trimStr
  have h1 : s.dropWhile goIsSpace = [] := List.dropWhile_eq_nil_iff.mpr (fun x hx => h x hx)
  simp [h1]

theorem cleanLine_all_space (l : Str) (h : ∀ x ∈ l, goIsSpace x = true) : cleanLine l = [] := by
  have hesc : ∀ x ∈ l, (x == escChar) = false := by
    intro x hx
    cases hbe : (x == escChar) with
    | false => rfl
    | true =>
      exfalso
      have hx2 := eq_of_beq hbe
      have := h x hx
      rw [hx2] at this
      exact absurd this (by decide)
  unfold cleanLine
  rw [stripAnsiStr, stripAnsiGo_no_esc _ _ hesc]
  exact trimStr_all_space l h

theorem buildRecent_all_blank (limit : Nat) (lines : List Str)
    (h : ∀ l ∈ lines, cleanLine l = []) : buildRecent limit lines = [] := by
  unfold buildRecent
  rw [List.filter_eq_nil_iff.mpr ?_]
  · simp
  · intro x hx
    rw [List.mem_map] at hx
    obtain ⟨y, hy, rfl⟩ := hx
    rw [h y (List.mem_reverse.mp hy)]
    simp

theorem bottom_of_buildRecent (content : Str) (limit : Nat) (hl : 0 < limit) :
    (buildRecent limit (splitLines content)).headD [] = bottomLine content := by
  unfold buildRecent bottomLine
  exact headD_take _ _ _ hl

/-! ## Claim C2 -/

/-- Claim C2 counterexample: the Gemini backend does not evaluate RUNNING
before DONE.  On a pane whose bottommost line is `exited` while a line above
shows the RUNNING marker `esc to cancel`, Gemini classifies DONE even though
a RUNNING pattern occurs in the scanned window, so RUNNING does not pre-empt
DONE there. -/
theorem C2_counterexample :
    geminiDetectStatus (lit ("esc to cancel\nexited")) = .done ∧
    (buildRecent 20 (splitLines (lit ("esc to cancel\nexited")))).any geminiRunLine = true := by
  constructor
  · decide
  · decide

/-- Claim C2 (amended): each backend evaluates a fixed ordered rule list with
first match winning and RUNNING as default, but the orders differ: Claude
checks RUNNING, WAITING, IDLE, then DONE (DONE only against the bottommost
non-blank line), while Gemini and Codex check DONE (bottommost non-blank line
only) first, then RUNNING, WAITING, IDLE. -/
theorem C2_amended (content : Str) :
    claudeDetectStatus content =
      (let recent := buildRecent 15 (splitLines content)
       if recent.isEmpty then .running
       else firstMatch
         [(anyLine claudeRunLine, .running), (anyLine claudeWaitLine, .waiting),
          (anyLine claudeIdleLine, .idle), (bottomDone, .done)] .running recent) ∧
    geminiDetectStatus content =
      (let recent := buildRecent 20 (splitLines content)
       if recent.isEmpty then .running
       else firstMatch
         [(bottomDone, .done), (anyLine geminiRunLine, .running),
          (anyLine geminiWaitLine, .waiting), (anyLine geminiIdleLine, .idle)] .running recent) ∧
    codexDetectStatus content =
      (let recent := buildRecent 20 (splitLines content)
       if recent.isEmpty then .running
       else firstMatch
         [(bottomDone, .done), (anyLine codexRunLine, .running),
          (anyLine codexWaitLine, .waiting), (anyLine codexIdleLine, .idle)] .running recent) := by
  refine ⟨rfl, rfl, rfl⟩

/-! ## Claim C8 -/

/-- Claim C8: for every supported backend and every input string, DetectStatus
terminates with exactly one of the four statuses (it is a total function into
the closed enum), the empty input yields the RUNNING default, and so does any
whitespace-only input. -/
theorem C8_theorem :
    (∀ (b : BackendKind) (content : Str),
       detectStatus b content = .running ∨ detectStatus b content = .waiting ∨
       detectStatus b content = .idle ∨ detectStatus b content = .done) ∧
    (∀ b : BackendKind, detectStatus b (lit ("")) = .running) ∧
    (∀ (b : BackendKind) (content : Str), content.all goIsSpace = true →
       detectStatus b content = .running) := by
  refine ⟨?_, ?_, ?_⟩
  · intro b content
    cases h : detectStatus b content
    · exact Or.inl rfl
    · exact Or.inr (Or.inl rfl)
    · exact Or.inr (Or.inr (Or.inl rfl))
    · exact Or.inr (Or.inr (Or.inr rfl))
  · intro b
    cases b
    · decide
    · decide
    · decide
  · intro b content hsp
    have hlines : ∀ l ∈ splitLines content, cleanLine l = [] := by
      intro l hl
      exact cleanLine_all_space l
        (fun x hx => List.all_eq_true.mp hsp x (mem_splitLines_mem content l hl x hx))
    cases b
    · show claudeDetectStatus content = .running
      simp [claudeDetectStatus, buildRecent_all_blank 15 _ hlines]
    · show geminiDetectStatus content = .running
      simp [geminiDetectStatus, buildRecent_all_blank 20 _ hlines]
    · show codexDetectStatus content = .running
      simp [codexDetectStatus, buildRecent_all_blank 20 _ hlines]

/-- Claim C8 witness: the third part applied to a concrete whitespace-only
pane capture. -/
theorem C8_witness : detectStatus .claude (lit ("  \n\t ")) = .running :=
  C8_theorem.2.2 .claude (lit ("  \n\t ")) (by decide)

/-! ## Claim C9 -/

/-- Claim C9: for every supported backend, a termination phrase appearing
only in lines other than the bottommost non-blank one never yields DONE —
formally, whenever the bottommost non-blank cleaned line matches no
termination phrase, DetectStatus does not return DONE. -/
theorem C9_theorem (b : BackendKind) (content : Str)
    (h : doneLine (bottomLine content) = false) : detectStatus b content ≠ .done := by
  cases b
  · show claudeDetectStatus content ≠ .done
    have hb := bottom_of_buildRecent content 15 (by norm_num)
    simp only [claudeDetectStatus, hb, h]
    split_ifs <;> simp_all
  · show geminiDetectStatus content ≠ .done
    have hb := bottom_of_buildRecent content 20 (by norm_num)
    simp only [geminiDetectStatus, hb, h]
    split_ifs <;> simp_all
  · show codexDetectStatus content ≠ .done
    have hb := bottom_of_buildRecent content 20 (by norm_num)
    simp only [codexDetectStatus, hb, h]
    split_ifs <;> simp_all

/-- Claim C9 witness: a pane with `goodbye` above a non-terminal bottom line
is not classified DONE. -/
theorem C9_witness : detectStatus .claude (lit ("goodbye\nworking on it")) ≠ .done :=
  C9_theorem .claude (lit ("goodbye\nworking on it")) (by decide)

/-! ## Claim C6 -/

/-- Claim C6 counterexample: Claude's waiting-mode chrome strip removes the
bottommost non-blank line unconditionally, so an input with no chrome marker
(no separator line) is not returned unchanged. -/
theorem C6_counterexample :
    stripChrome .claude true [lit ("abc")] ≠ [lit ("abc")] ∧
    noChromeMarkers .claude true [lit ("abc")] = true := by
  constructor
  · decide
  · decide

/-- Claim C6 (amended): for every backend and both waiting-flag values the
stripped output is never longer than the input; an input with no matching
chrome markers is returned unchanged for Gemini, Codex, and Claude outside
waiting mode; Claude's waiting-mode strip also removes the bottommost
non-blank line, so a separator-free input is unchanged exactly when all its
lines are blank. -/
theorem C6_amended (b : BackendKind) (w : Bool) (lines : List Str) :
    (stripChrome b w lines).length ≤ lines.length ∧
    (noChromeMarkers b w lines = true → ¬(b = .claude ∧ w = true) →
       stripChrome b w lines = lines) ∧
    (b = .claude → w = true → noChromeMarkers b w lines = true →
       lines.all (fun l => (cleanLine l).isEmpty) = true → stripChrome b w lines = lines) := by
  refine ⟨?_, ?_, ?_⟩
  · cases b <;> cases w <;> simp only [stripChrome]
    · unfold claudeStripChromeLines
      cases hp : findLastIdx (fun l => (lit ("❯")).isPrefixOf (cleanLine l)) lines with
      | none => simp [hp]
      | some pIdx =>
        cases hs : findLastIdx (fun l => isSeparatorLine (cleanLine l)) (lines.take pIdx) with
        | none => simp only [hp, hs]; exact (List.take_sublist pIdx lines).length_le
        | some i => simp only [hp, hs]; exact (List.take_sublist i lines).length_le
    · unfold claudeStripWaitingChrome
      cases hf : findLastIdx (fun l => !(cleanLine l).isEmpty)
          (lines.filter (fun l => !isSeparatorLine (cleanLine l))) with
      | none => simp only [hf]; exact (List.filter_sublist lines).length_le
      | some i =>
        simp only [hf]
        exact ((List.eraseIdx_sublist _ i).trans (List.filter_sublist lines)).length_le
    · exact Nat.le_refl _
    · exact Nat.le_refl _
    · exact Nat.le_refl _
    · exact Nat.le_refl _
  · intro hnm hncw
    cases b with
    | claude =>
      cases w with
      | true => exact absurd ⟨rfl, rfl⟩ hncw
      | false =>
        have hall : ∀ l ∈ lines, ((lit ("❯")).isPrefixOf (cleanLine l)) = false := by
          intro l hl
          have := (Bool.not_eq_true' _).mp hnm
          rw [List.any_eq_false] at this
          exact Bool.eq_false_iff.mpr (this l hl)
        simp only [stripChrome]
        unfold claudeStripChromeLines
        rw [findLastIdx_eq_none _ _ hall]
    | gemini => rfl
    | codex => rfl
  · intro hb hw hnm hall
    subst hb; subst hw
    have hsep : ∀ l ∈ lines, (!isSeparatorLine (cleanLine l)) = true := by
      intro l hl
      have := (Bool.not_eq_true' _).mp hnm
      rw [List.any_eq_false] at this
      simpa using Bool.eq_false_iff.mpr (this l hl)
    have hfe : lines.filter (fun l => !isSeparatorLine (cleanLine l)) = lines :=
      List.filter_eq_self.mpr hsep
    have hnb : ∀ l ∈ lines, (!(cleanLine l).isEmpty) = false := by
      intro l hl
      have := List.all_eq_true.mp hall l hl
      simpa using this
    have hfl := findLastIdx_eq_none _ _ hnb
    simp only [stripChrome]
    unfold claudeStripWaitingChrome
    simp only [hfe, hfl]

/-- Claim C6 witness: the length bound and the marker-free identity applied
at concrete inputs. -/
theorem C6_witness :
    (stripChrome .gemini false [lit ("hello world")]).length ≤ 1 ∧
    stripChrome .claude false [lit ("no markers here")] = [lit ("no markers here")] :=
  ⟨(C6_amended .gemini false [lit ("hello world")]).1,
   (C6_amended .claude false [lit ("no markers here")]).2.1 (by decide) (by simp)⟩

/-! ## Claim C10 -/

theorem previewPick_length (n : Nat) (l : List Str) : (previewPick n l).length ≤ n := by
  induction l generalizing n with
  | nil => cases n <;> simp [previewPick]
  | cons raw rest ih =>
    cases n with
    | zero => simp [previewPick]
    | succ m =>
      simp only [previewPick]
      split
      · simpa using Nat.succ_le_succ (ih m)
      · exact Nat.le_trans (ih (m + 1)) (Nat.le_refl _)

theorem previewPick_mem (n : Nat) (l : List Str) (x : Str) (hx : x ∈ previewPick n l) :
    x.isEmpty = false ∧ 2 < utf8Len x := by
  induction l generalizing n with
  | nil => cases n <;> simp [previewPick] at hx
  | cons raw rest ih =>
    cases n with
    | zero => simp [previewPick] at hx
    | succ m =>
      simp only [previewPick] at hx
      revert hx
      split
      · next hcond =>
        intro hx
        rcases List.mem_cons.mp hx with h1 | h1
        · subst h1
          have hcond2 := hcond
          rw [Bool.and_eq_true, Bool.not_eq_true', decide_eq_true_eq] at hcond2
          exact hcond2
        · exact ih m h1
      · intro hx
        exact ih (m + 1) hx

theorem previewPick_sublist (n : Nat) (l : List Str) :
    List.Sublist (previewPick n l) (l.map cleanLine) := by
  induction l generalizing n with
  | nil => cases n <;> simp [previewPick]
  | cons raw rest ih =>
    cases n with
    | zero => simp [previewPick]
    | succ m =>
      simp only [previewPick, List.map_cons]
      split
      · exact (ih m).cons₂ (cleanLine raw)
      · exact (ih (m + 1)).cons (cleanLine raw)

/-- Claim C10 counterexample: the length filter of `PreviewFromContent` is a
byte-count test (`len(line) > 2`), not a character count: the one-character
line `❯` occupies three UTF-8 bytes and is returned, refuting the clause
that every returned line is longer than 2 characters. -/
theorem C10_counterexample :
    PreviewFromContent (lit ("❯")) 1 (fun l => l) = [lit ("❯")] ∧
    (lit ("❯")).length = 1 := by
  constructor
  · decide
  · decide

/-- Claim C10 (amended): the preview has at most `n` lines; every returned
line, already ANSI-stripped and trimmed, is non-blank and longer than two
UTF-8 bytes (shorter lines are discarded); and whenever the strip function
returns a subsequence of its input — as every backend StripChrome does — the
returned lines keep the pane's top-to-bottom order. -/
theorem C10_amended (content : Str) (n : Nat) (stripFn : List Str → List Str) :
    (PreviewFromContent content n stripFn).length ≤ n ∧
    (∀ l ∈ PreviewFromContent content n stripFn, l.isEmpty = false ∧ 2 < utf8Len l) ∧
    (List.Sublist (stripFn (splitLines content)) (splitLines content) →
       List.Sublist (PreviewFromContent content n stripFn)
         ((splitLines content).map cleanLine)) ∧
    (∀ (b : BackendKind) (w : Bool) (ls : List Str), List.Sublist (stripChrome b w ls) ls) := by
  refine ⟨?_, ?_, ?_, ?_⟩
  · unfold PreviewFromContent
    rw [List.length_reverse]
    exact previewPick_length n _
  · intro l hl
    unfold PreviewFromContent at hl
    rw [List.mem_reverse] at hl
    exact previewPick_mem n _ l hl
  · intro hs
    have h1 := previewPick_sublist n ((stripFn (splitLines content)).reverse)
    have h2 := h1.reverse
    rw [List.map_reverse, List.reverse_reverse] at h2
    exact h2.trans (hs.map cleanLine)
  · intro b w ls
    cases b <;> cases w <;> simp only [stripChrome]
    · unfold claudeStripChromeLines
      cases hp : findLastIdx (fun l => (lit ("❯")).isPrefixOf (cleanLine l)) ls with
      | none => simp [hp]
      | some pIdx =>
        cases hsi : findLastIdx (fun l => isSeparatorLine (cleanLine l)) (ls.take pIdx) with
        | none => simp only [hp, hsi]; exact List.take_sublist pIdx ls
        | some i => simp only [hp, hsi]; exact List.take_sublist i ls
    · unfold claudeStripWaitingChrome
      cases hf : findLastIdx (fun l => !(cleanLine l).isEmpty)
          (ls.filter (fun l => !isSeparatorLine (cleanLine l))) with
      | none => simp only [hf]; exact List.filter_sublist ls
      | some i =>
        simp only [hf]
        exact (List.eraseIdx_sublist _ i).trans (List.filter_sublist ls)
    · exact List.Sublist.refl ls
    · exact List.Sublist.refl ls
    · exact List.Sublist.refl ls
    · exact List.Sublist.refl ls

/-- Claim C10 witness: length bound and order preservation at a concrete
capture with the identity strip function. -/
theorem C10_witness :
    (PreviewFromContent (lit ("hello\nworld")) 2 (fun l => l)).length ≤ 2 ∧
    List.Sublist (PreviewFromContent (lit ("hello\nworld")) 2 (fun l => l))
      ((splitLines (lit ("hello\nworld"))).map cleanLine) :=
  ⟨(C10_amended (lit ("hello\nworld")) 2 (fun l => l)).1,
   (C10_amended (lit ("hello\nworld")) 2 (fun l => l)).2.2.1 (List.Sublist.refl _)⟩

/-! ## Claim C7 -/

/-- Claim C7: the hook fast path returns a classification only for a record
that parses to one of the four states and is fresh; a RUNNING record older
than 30 seconds, any other state older than 300 seconds, a missing or
unparseable file, and an unrecognized state all yield a cache miss, after
which the manager classifies from the scraped pane content. -/
theorem C7_theorem (now : Int) :
    readHookStatusFile none now = none ∧
    (∀ ts : Int, 30 < now - ts →
       readHookStatusFile (some { state := "RUNNING", ts := ts }) now = none) ∧
    (∀ (st : String) (ts : Int), (st == "WAITING" || st == "IDLE" || st == "DONE") = true →
       300 < now - ts → readHookStatusFile (some { state := st, ts := ts }) now = none) ∧
    (∀ r : HookRec,
       (r.state == "RUNNING" || r.state == "WAITING" || r.state == "IDLE" ||
        r.state == "DONE") = false →
       readHookStatusFile (some r) now = none) ∧
    (∀ (r : HookRec) (s : AgentStatus), readHookStatusFile (some r) now = some s →
       (r.state = "RUNNING" ∧ s = .running ∧ now - r.ts ≤ 30) ∨
       ((r.state = "WAITING" ∧ s = .waiting ∨ r.state = "IDLE" ∧ s = .idle ∨
         r.state = "DONE" ∧ s = .done) ∧ now - r.ts ≤ 300)) ∧
    (∀ (env : ManagerEnv) (agent : Agent) (sess : String) (content : Str),
       agent.discovered = false →
       readHookStatusFile (env.hookFile agent.id) now = none →
       env.memSession agent.id = some sess → env.alive sess = true →
       env.capture sess = some content →
       managerDetectStatus env agent now = detectStatus (backendOf agent.backendId) content) := by
  refine ⟨rfl, ?_, ?_, ?_, ?_, ?_⟩
  · intro ts h
    simp [readHookStatusFile, h]
  · intro st ts hst h
    rw [Bool.or_eq_true, Bool.or_eq_true] at hst
    rcases hst with (h1 | h1) | h1 <;> rw [eq_of_beq h1] <;> simp [readHookStatusFile, h]
  · intro r h
    rw [Bool.or_eq_false_iff, Bool.or_eq_false_iff, Bool.or_eq_false_iff] at h
    simp [readHookStatusFile, h.1.1.1, h.1.1.2, h.1.2, h.2]
  · intro r s h
    simp only [readHookStatusFile] at h
    by_cases hR : (r.state == "RUNNING") = true
    · rw [if_pos hR] at h
      by_cases hA : 30 < now - r.ts
      · rw [if_pos hA] at h; exact absurd h (by simp)
      · rw [if_neg hA] at h
        injection h with h2
        exact Or.inl ⟨eq_of_beq hR, h2.symm, Int.not_lt.mp hA⟩
    · rw [if_neg hR] at h
      by_cases hW : (r.state == "WAITING") = true
      · rw [if_pos hW] at h
        by_cases hA : 300 < now - r.ts
        · rw [if_pos hA] at h; exact absurd h (by simp)
        · rw [if_neg hA] at h
          injection h with h2
          exact Or.inr ⟨Or.inl ⟨eq_of_beq hW, h2.symm⟩, Int.not_lt.mp hA⟩
      · rw [if_neg hW] at h
        by_cases hI : (r.state == "IDLE") = true
        · rw [if_pos hI] at h
          by_cases hA : 300 < now - r.ts
          · rw [if_pos hA] at h; exact absurd h (by simp)
          · rw [if_neg hA] at h
            injection h with h2
            exact Or.inr ⟨Or.inr (Or.inl ⟨eq_of_beq hI, h2.symm⟩), Int.not_lt.mp hA⟩
        · rw [if_neg hI] at h
          by_cases hD : (r.state == "DONE") = true
          · rw [if_pos hD] at h
            by_cases hA : 300 < now - r.ts
            · rw [if_pos hA] at h; exact absurd h (by simp)
            · rw [if_neg hA] at h
              injection h with h2
              exact Or.inr ⟨Or.inr (Or.inr ⟨eq_of_beq hD, h2.symm⟩), Int.not_lt.mp hA⟩
          · rw [if_neg hD] at h
            exact absurd h (by simp)
  · intro env agent sess content hdisc hhook hmem halive hcap
    simp [managerDetectStatus, hdisc, hhook, getSession, hmem, halive, hcap]

/-- Claim C7 witness: expired RUNNING, expired IDLE and unrecognized records
all miss. -/
theorem C7_witness :
    readHookStatusFile (some { state := "RUNNING", ts := 0 }) 31 = none ∧
    readHookStatusFile (some { state := "IDLE", ts := 0 }) 301 = none ∧
    readHookStatusFile (some { state := "BOGUS", ts := 0 }) 1 = none :=
  ⟨(C7_theorem 31).2.1 0 (by decide),
   (C7_theorem 301).2.2.1 "IDLE" 0 (by decide) (by decide),
   (C7_theorem 1).2.2.2.1 { state := "BOGUS", ts := 0 } (by decide)⟩

/-! ## Claim C1 -/

/-- Claim C1 counterexample: a spawned (non-discovered) agent whose bound
session no longer exists is still classified from a fresh hook status file:
with every session dead but a 10-second-old RUNNING hook record, the manager
returns RUNNING, not DONE — the hook fast path pre-empts the
session-existence check. -/
theorem C1_counterexample :
    managerDetectStatus
      { alive := fun _ => false, capture := fun _ => none,
        hookFile := fun _ => some { state := "RUNNING", ts := 100 },
        memSession := fun _ => none }
      { id := "1", name := "a", dir := "w", status := .running, createdAt := 0,
        statusSince := 0, sessionName := "tickettok_1", discovered := false,
        backendId := "claude" } 110 = .running ∧
    AgentStatus.running ≠ AgentStatus.done := by
  constructor
  · decide
  · decide

/-- Claim C1 (amended): when the bound session no longer exists, DetectStatus
returns DONE for a discovered agent unconditionally; for a spawned agent it
returns DONE provided the hook fast path misses and any in-memory handle for
the agent also refers to a dead session — a fresh hook record pre-empts the
session-existence check and is returned as-is. -/
theorem C1_amended (env : ManagerEnv) (agent : Agent) (now : Int)
    (hdead : env.alive agent.sessionName = false) :
    (agent.discovered = true → managerDetectStatus env agent now = .done) ∧
    (agent.discovered = false →
      readHookStatusFile (env.hookFile agent.id) now = none →
      (∀ s, env.memSession agent.id = some s → env.alive s = false) →
      managerDetectStatus env agent now = .done) := by
  constructor
  · intro hd
    simp [managerDetectStatus, hd, hdead]
  · intro hd hhook hmem
    simp only [managerDetectStatus, hd, hhook]
    cases hm : env.memSession agent.id with
    | some s =>
      have hs := hmem s hm
      simp [getSession, hm, hs]
    | none =>
      simp [getSession, hm, hdead]

/-- Claim C1 witness: a spawned agent with a dead session, no hook record and
no in-memory handle is classified DONE. -/
theorem C1_witness :
    managerDetectStatus
      { alive := fun _ => false, capture := fun _ => none,
        hookFile := fun _ => none, memSession := fun _ => none }
      { id := "1", name := "a", dir := "w", status := .running, createdAt := 0,
        statusSince := 0, sessionName := "tickettok_1", discovered := false,
        backendId := "claude" } 0 = .done :=
  (C1_amended _ _ 0 rfl).2 rfl rfl (fun _ h => Option.noConfusion h)

/-! ## Claim C3 -/

theorem removeFirst_isSome (id : String) (l : List Agent) :
    (removeFirst id l).isSome = l.any (fun a => a.id == id) := by
  induction l with
  | nil => rfl
  | cons a t ih =>
    by_cases h : (a.id == id) = true
    · simp [removeFirst, h]
    · cases hr : removeFirst id t with
      | some rest =>
        rw [hr] at ih
        simp [removeFirst, h, hr, ← ih]
      | none =>
        rw [hr] at ih
        simp [removeFirst, h, hr, ← ih]

/-- Claim C3 counterexample: `Store.save` writes the state file directly; a
concrete `Update` produces a single plain write of the whole document to the
state path, not a temporary-file write followed by a rename. -/
theorem C3_counterexample :
    (storeUpdate { path := "p", agents := [], nextId := 1 } "1" .running 0).2 =
      [FsOp.write "p" []] ∧
    ¬ ∃ tmp doc, (storeUpdate { path := "p", agents := [], nextId := 1 } "1" .running 0).2 =
        [FsOp.write tmp doc, FsOp.rename tmp "p"] ∧ tmp ≠ "p" := by
  constructor
  · rfl
  · rintro ⟨tmp, doc, h, -⟩
    have hlen := congrArg List.length h
    simp [storeUpdate, storeSave, updateFirst] at hlen

/-- Claim C3 (amended): every Store mutation that persists rewrites the whole
document with one direct write to the state path (no temporary file, no
rename, so a kill mid-write can leave a partial file); Add, Update,
UpdateSessionName and UpdateDiscovered always save, while Remove and
ClearDone save exactly when they removed an agent. -/
theorem C3_amended (s : StoreSt) (name dir id sessName : String) (st : AgentStatus)
    (disc : Bool) (now : Int) :
    (storeAdd s name dir now).2.2 = [FsOp.write s.path (storeAdd s name dir now).1.agents] ∧
    (storeUpdate s id st now).2 = [FsOp.write s.path (storeUpdate s id st now).1.agents] ∧
    (storeUpdateSessionName s id sessName).2 =
      [FsOp.write s.path (storeUpdateSessionName s id sessName).1.agents] ∧
    (storeUpdateDiscovered s id disc).2 =
      [FsOp.write s.path (storeUpdateDiscovered s id disc).1.agents] ∧
    (storeRemove s id).2.2 =
      (if s.agents.any (fun a => a.id == id) then
        [FsOp.write s.path (storeRemove s id).1.agents] else []) ∧
    (storeClearDone s).2.2 =
      (if s.agents.any (fun a => a.status == .done) then
        [FsOp.write s.path (storeClearDone s).1.agents] else []) := by
  refine ⟨rfl, rfl, rfl, rfl, ?_, ?_⟩
  · by_cases h : s.agents.any (fun a => a.id == id) = true
    · rw [if_pos h]
      have h2 : (removeFirst id s.agents).isSome = true := by rw [removeFirst_isSome]; exact h
      obtain ⟨as, has⟩ := Option.isSome_iff_exists.mp h2
      simp [storeRemove, has, storeSave]
    · rw [if_neg h]
      have h2 : removeFirst id s.agents = none := by
        rw [← Option.not_isSome_iff_eq_none, removeFirst_isSome]
        simpa using h
      simp [storeRemove, h2]
  · by_cases h : s.agents.any (fun a => a.status == .done) = true
    · rw [if_pos h]
      have hpos : 0 < s.agents.countP (fun a => a.status == .done) :=
        List.countP_pos_iff.mpr (List.any_eq_true.mp h)
      simp [storeClearDone, hpos, storeSave]
    · rw [if_neg h]
      have hz : s.agents.countP (fun a => a.status == .done) = 0 := by
        rw [List.countP_eq_zero]
        intro a ha hpa
        exact h (List.any_eq_true.mpr ⟨a, ha, hpa⟩)
      simp [storeClearDone, hz]

/-! ## Claims C4 and C5: discovery merge -/

theorem countP_updateFirst (q : Agent → Bool) (f : Agent → Agent) (p : Agent → Bool)
    (hf : ∀ x, p (f x) = p x) (l : List Agent) :
    (updateFirst q f l).countP p = l.countP p := by
  induction l with
  | nil => rfl
  | cons a t ih =>
    by_cases h : q a = true
    · simp [updateFirst, h, List.countP_cons, hf a]
    · simp [updateFirst, h, List.countP_cons, ih]

theorem mergeOne_countSess_of_found (st : StoreSt) (d : DiscoveredAgent) (now : Int)
    (h : ∃ x ∈ st.agents, (fun a => a.sessionName == d.sessionName) x = true) :
    countSess (mergeOne st.agents st d now) d.sessionName = countSess st d.sessionName := by
  have hfind : (List.find? (fun a => a.sessionName == d.sessionName) st.agents).isSome :=
    List.find?_isSome.mpr h
  obtain ⟨a, ha⟩ := Option.isSome_iff_exists.mp hfind
  simp only [mergeOne, ha]
  by_cases hst : (a.status == AgentStatus.done) = true
  · have h1 : ∀ x : Agent,
        (((fun y => if y.status ≠ AgentStatus.running then
            { y with status := AgentStatus.running, statusSince := now } else y) x).sessionName
          == d.sessionName) = (x.sessionName == d.sessionName) := by
      intro x
      by_cases hx : x.status ≠ AgentStatus.running <;> simp [hx]
    have h2 : ∀ x : Agent,
        ((({ x with discovered := true } : Agent)).sessionName == d.sessionName) =
          (x.sessionName == d.sessionName) := by
      intro x
      rfl
    simp only [hst, if_true]
    unfold countSess storeUpdateDiscovered storeUpdate
    simp only []
    rw [countP_updateFirst _ _ _ h2, countP_updateFirst _ _ _ h1]
  · simp [hst]

theorem updateFirst_append_last (q : Agent → Bool) (f : Agent → Agent) (l : List Agent)
    (a : Agent) (h : ∀ x ∈ l, q x = false) (ha : q a = true) :
    updateFirst q f (l ++ [a]) = l ++ [f a] := by
  induction l with
  | nil => simp [updateFirst, ha]
  | cons b t ih =>
    have hb := h b (List.mem_cons_self b t)
    simp only [List.cons_append, updateFirst, hb, Bool.false_eq_true, if_false,
      List.append_eq]
    rw [ih (fun x hx => h x (List.mem_cons_of_mem b hx))]

theorem mergeOne_not_found (st : StoreSt) (d : DiscoveredAgent) (now : Int)
    (hfind : List.find? (fun a => a.sessionName == d.sessionName) st.agents = none)
    (hfresh : ∀ a ∈ st.agents, (a.id == toString st.nextId) = false) :
    (mergeOne st.agents st d now).agents =
      st.agents ++ [{ id := toString st.nextId, name := d.name, dir := d.dir,
                      status := .running, createdAt := now, statusSince := now,
                      sessionName := d.sessionName, discovered := true,
                      backendId := defaultBackendId }] := by
  simp only [mergeOne, hfind]
  unfold storeAdd storeUpdateSessionName storeUpdateDiscovered
  simp only []
  rw [updateFirst_append_last _ _ _ _ hfresh (by simp)]
  rw [updateFirst_append_last _ _ _ _ hfresh (by simp)]

/-- Claim C4 counterexample: within one discovery batch the merge consults a
snapshot that is not refreshed, so a batch naming the same session twice
creates two tracked agents with that session name, not one. -/
theorem C4_counterexample :
    countSess
      (mergeDiscovered [] { path := "p", agents := [], nextId := 1 }
        [{ name := "x", dir := "u", sessionName := "s1", paneId := "", pid := 0 },
         { name := "x", dir := "u", sessionName := "s1", paneId := "", pid := 0 }] 0)
      "s1" = 2 := by
  decide

/-- Claim C4 (amended): merging the same DiscoveredAgent across two
successive merge calls, with the agent snapshot refreshed between calls as
the discovery tick does, yields exactly one tracked agent with that session
name (assuming at most one such agent beforehand and a fresh next identity);
within a single batch the stale snapshot can duplicate instead. -/
theorem C4_amended (st : StoreSt) (d : DiscoveredAgent) (now1 now2 : Int)
    (hcount : countSess st d.sessionName ≤ 1)
    (hfresh : ∀ a ∈ st.agents, (a.id == toString st.nextId) = false) :
    countSess (mergeDiscovered st.agents st [d] now1) d.sessionName = 1 ∧
    countSess (mergeDiscovered (mergeDiscovered st.agents st [d] now1).agents
      (mergeDiscovered st.agents st [d] now1) [d] now2) d.sessionName = 1 := by
  have hm1 : mergeDiscovered st.agents st [d] now1 = mergeOne st.agents st d now1 := rfl
  have key : countSess (mergeOne st.agents st d now1) d.sessionName = 1 := by
    cases hfind : List.find? (fun a => a.sessionName == d.sessionName) st.agents with
    | some a =>
      have hmem : ∃ x ∈ st.agents, (fun a => a.sessionName == d.sessionName) x = true :=
        ⟨a, List.mem_of_find?_eq_some hfind, by simpa using List.find?_some hfind⟩
      have hpos : 0 < countSess st d.sessionName := List.countP_pos_iff.mpr hmem
      rw [mergeOne_countSess_of_found st d now1 hmem]
      exact Nat.le_antisymm hcount hpos
    | none =>
      have hz : countSess st d.sessionName = 0 := by
        unfold countSess
        rw [List.countP_eq_zero]
        intro x hx
        exact List.find?_eq_none.mp hfind x hx
      have hA := mergeOne_not_found st d now1 hfind hfresh
      unfold countSess
      rw [hA, List.countP_append]
      unfold countSess at hz
      rw [hz]
      simp
  refine ⟨hm1 ▸ key, ?_⟩
  have hmem1 : ∃ x ∈ (mergeOne st.agents st d now1).agents,
      (fun a => a.sessionName == d.sessionName) x = true := by
    apply List.countP_pos_iff.mp
    unfold countSess at key
    omega
  rw [hm1]
  rw [show mergeDiscovered (mergeOne st.agents st d now1).agents
      (mergeOne st.agents st d now1) [d] now2 =
      mergeOne (mergeOne st.agents st d now1).agents (mergeOne st.agents st d now1) d now2
    from rfl]
  rw [mergeOne_countSess_of_found _ d now2 hmem1]
  exact key

/-- Claim C4 witness: the amended two-call property applied at a concrete
empty store and discovery candidate. -/
theorem C4_witness :
    countSess
      (mergeDiscovered ({ path := "p", agents := [], nextId := 1 } : StoreSt).agents
        { path := "p", agents := [], nextId := 1 }
        [{ name := "x", dir := "u", sessionName := "s1", paneId := "", pid := 0 }] 0)
      "s1" = 1 :=
  (C4_amended { path := "p", agents := [], nextId := 1 }
    { name := "x", dir := "u", sessionName := "s1", paneId := "", pid := 0 } 0 5
    (by decide) (by simp)).1

theorem updateFirst_id_eq_map (f : Agent → Agent) (i : String) (l : List Agent)
    (hnd : (l.map (fun x => x.id)).Nodup) :
    updateFirst (fun x => x.id == i) f l = l.map (fun x => if x.id = i then f x else x) := by
  induction l with
  | nil => rfl
  | cons b t ih =>
    simp only [List.map_cons, List.nodup_cons] at hnd
    by_cases hb : b.id = i
    · have hbeq : (b.id == i) = true := by simp [hb]
      simp only [updateFirst, hbeq, if_true, List.map_cons, if_pos hb]
      congr 1
      have hpt : ∀ x ∈ t, (if x.id = i then f x else x) = x := by
        intro x hx
        have hxne : x.id ≠ i := by
          intro hxe
          exact hnd.1 (by rw [hb, ← hxe]; exact List.mem_map_of_mem _ hx)
        rw [if_neg hxne]
      rw [List.map_congr_left hpt]
      simp
    · have hbeq : (b.id == i) = false := by simp [hb]
      simp only [updateFirst, hbeq, Bool.false_eq_true, if_false, List.map_cons, if_neg hb]
      rw [ih hnd.2]

/-- Claim C5: merging a DiscoveredAgent whose session name matches an
existing tracked agent (the first match, as the merge loop finds it) revives
that same agent in place when it is DONE — status RUNNING, since-timestamp
refreshed, discovered flag set — leaving every other agent untouched and
creating no new agent; a match with any non-DONE status leaves the store
entirely unchanged. -/
theorem C5_theorem (st : StoreSt) (d : DiscoveredAgent) (a : Agent) (now : Int)
    (hfind : List.find? (fun x => x.sessionName == d.sessionName) st.agents = some a)
    (hnd : (st.agents.map (fun x => x.id)).Nodup) :
    (a.status = .done →
       (mergeDiscovered st.agents st [d] now).agents =
         st.agents.map (fun x => if x.id = a.id then
             { x with status := AgentStatus.running, statusSince := now, discovered := true }
           else x) ∧
       (mergeDiscovered st.agents st [d] now).agents.length = st.agents.length) ∧
    (a.status ≠ .done → mergeDiscovered st.agents st [d] now = st) := by
  have hmem := List.mem_of_find?_eq_some hfind
  have hm1 : mergeDiscovered st.agents st [d] now = mergeOne st.agents st d now := rfl
  constructor
  · intro hdone
    rw [hm1]
    have hbeq : (a.status == AgentStatus.done) = true := by simp [hdone]
    have hmain : (mergeOne st.agents st d now).agents =
        st.agents.map (fun x => if x.id = a.id then
          { x with status := AgentStatus.running, statusSince := now, discovered := true }
          else x) := by
      simp only [mergeOne, hfind, hbeq, if_true]
      unfold storeUpdate storeUpdateDiscovered
      simp only []
      rw [updateFirst_id_eq_map _ a.id _ hnd]
      have hids : ((st.agents.map (fun x => if x.id = a.id then
          (fun y => if y.status ≠ AgentStatus.running then
            { y with status := AgentStatus.running, statusSince := now } else y) x
          else x)).map (fun x => x.id)) = st.agents.map (fun x => x.id) := by
        rw [List.map_map]
        apply List.map_congr_left
        intro x hx
        by_cases hxi : x.id = a.id
        · by_cases hxs : x.status ≠ AgentStatus.running <;> simp [Function.comp, hxi, hxs]
        · simp [Function.comp, hxi]
      rw [updateFirst_id_eq_map _ a.id _ (by rw [hids]; exact hnd)]
      rw [List.map_map]
      apply List.map_congr_left
      intro x hx
      by_cases hxi : x.id = a.id
      · have hxa : x = a := List.inj_on_of_nodup_map hnd hx hmem hxi
        subst hxa
        have hxs : x.status ≠ AgentStatus.running := by rw [hdone]; intro hc; cases hc
        simp [Function.comp, hxi, hxs]
      · simp [Function.comp, hxi]
    exact ⟨hmain, by rw [hmain, List.length_map]⟩
  · intro hne
    rw [hm1]
    have hbeq : (a.status == AgentStatus.done) = false := by simp [hne]
    simp [mergeOne, hfind, hbeq]

/-- Claim C5 witness: a DONE agent bound to session `managed_7` is revived in
place to RUNNING with the discovered flag set when that session name
reappears in a discovery scan. -/
theorem C5_witness :
    (mergeDiscovered
      ({ path := "p",
         agents := [{ id := "7", name := "n", dir := "w", status := .done, createdAt := 0,
                      statusSince := 0, sessionName := "managed_7", discovered := true,
                      backendId := "claude" }], nextId := 8 } : StoreSt).agents
      { path := "p",
        agents := [{ id := "7", name := "n", dir := "w", status := .done, createdAt := 0,
                     statusSince := 0, sessionName := "managed_7", discovered := true,
                     backendId := "claude" }], nextId := 8 }
      [{ name := "y", dir := "v", sessionName := "managed_7", paneId := "", pid := 0 }]
      9).agents =
    ({ path := "p",
       agents := [{ id := "7", name := "n", dir := "w", status := .done, createdAt := 0,
                    statusSince := 0, sessionName := "managed_7", discovered := true,
                    backendId := "claude" }], nextId := 8 } : StoreSt).agents.map
      (fun x => if x.id = ({ id := "7", name := "n", dir := "w", status := .done,
                             createdAt := 0, statusSince := 0, sessionName := "managed_7",
                             discovered := true, backendId := "claude" } : Agent).id then
        { x with status := AgentStatus.running, statusSince := 9, discovered := true }
      else x) :=
  ((C5_theorem _ _ _ 9 (by decide) (by decide)).1 rfl).1

end Tickettok
